import Mathlib

/-!
Shallow embedding of the fake dataflow nodes of mofa-studio
(`src/apps/colang/dataflow/fake_nodes/`): the streaming text segmenter,
the conference (turn) controller, the synthetic speaker (fake LLM), the
fake TTS timing model and the message bridge. Text is modelled as
`List Char` (Python strings are sequences of characters); event payload
metadata becomes explicit fields; the dora `Node` event loop becomes a
fold over a list of events.
-/

namespace MofaStudio

/-! ## Common string helpers (Python semantics) -/

/-- The whitespace characters stripped by Python `str.strip()` (ASCII part:
space, tab, newline, carriage return, vertical tab, form feed). The inputs
of this pipeline are Chinese/ASCII text; the conservation results below
hold for any choice of whitespace set, since the same predicate is used on
both sides. -/
def isSpace (c : Char) : Bool :=
  c = ' ' || c = '\t' || c = '\n' || c = '\r' || c = Char.ofNat 11 || c = Char.ofNat 12

/-- Python `str.strip()`: drop leading and trailing whitespace. -/
def strip (l : List Char) : List Char :=
  ((l.dropWhile isSpace).reverse.dropWhile isSpace).reverse

/-- Python `str.lower()` (ASCII). -/
def lower (l : List Char) : List Char := l.map Char.toLower

/-- Does `needle` occur at the start of `haystack`? -/
def leadsList : List Char → List Char → Bool
  | [], _ => true
  | _ :: _, [] => false
  | a :: as, b :: bs => a = b && leadsList as bs

/-- Python `needle in haystack` substring test. -/
def hasSub (needle : List Char) : List Char → Bool
  | [] => needle.isEmpty
  | c :: rest => leadsList needle (c :: rest) || hasSub needle rest

/-! ## Streaming text segmenter (`fake_text_segmenter.py`) -/

/-- The fixed set `PUNCTUATION = "。！？.!?，,；"` of sentence-splitting marks. -/
def PUNCT : List Char := ['。', '！', '？', '.', '!', '?', '，', ',', '；']

/-- The recombination loop of `segment_text`: `re.split` with a capturing
group yields the text split into single punctuation characters and
punctuation-free runs, so scanning character by character is equivalent.
`current` is the accumulator; on a punctuation character the accumulator
(with the mark attached) is closed and appended when non-blank after
trimming; the final accumulator is appended when non-blank. -/
def segLoop (current : List Char) : List Char → List (List Char)
  | [] => if strip current = [] then [] else [strip current]
  | c :: rest =>
      if c ∈ PUNCT then
        (if strip (current ++ [c]) = [] then [] else [strip (current ++ [c])])
          ++ segLoop [] rest
      else
        segLoop (current ++ [c]) rest

/-- The function `segment_text(text)`: split text into sentences at punctuation marks,
keeping each mark attached to the preceding text. -/
def segment_text (text : List Char) : List (List Char) :=
  if text = [] then [] else segLoop [] text

/-- A text fragment event as delivered to the segmenter: payload plus the
`streaming` / `complete` metadata flags (absent keys default to `False`). -/
structure Frag where
  text : List Char
  streaming : Bool
  complete : Bool
deriving DecidableEq, Repr

/-- One ingest step of the segmenter for one speaker's buffer: returns the
chunks emitted (in order) and the new buffer. Mirrors the
`if is_streaming and not is_complete: ... else: ...` branch of `main`. -/
def ingest (buffer : List Char) (f : Frag) : List (List Char) × List Char :=
  if f.streaming && !f.complete then
    let b := buffer ++ f.text
    let segs := segment_text b
    if segs.length > 1 then (segs.dropLast, segs.getLastD [])
    else ([], b)
  else
    if buffer ≠ [] then (segment_text (buffer ++ f.text), [])
    else if f.text ≠ [] then (segment_text f.text, [])
    else ([], [])

/-- Ingest a sequence of fragments for one speaker, starting from `buffer`:
all chunks emitted in emission order, and the final retained buffer. -/
def runSeg (buffer : List Char) : List Frag → List (List Char) × List Char
  | [] => ([], buffer)
  | f :: fs =>
      let r := ingest buffer f
      let r' := runSeg r.2 fs
      (r.1 ++ r'.1, r'.2)

/-- The non-whitespace characters of a text, in order. -/
def nonspace (l : List Char) : List Char := l.filter (fun c => !isSpace c)

/-! ## Conference controller (`fake_conference_controller.py`) -/

/-- The two participants. -/
inductive Speaker where
  | techer
  | myself
deriving DecidableEq, Repr

/-- The rotation `turn_order = ["techer", "myself"]` — techer speaks first, then myself. -/
def turn_order : List Speaker := [.techer, .myself]

/-- Controller state: `conversation_started` and `current_turn`. -/
structure CtrlState where
  conversation_started : Bool
  current_turn : Nat
deriving DecidableEq, Repr

/-- Events the controller reacts to, by input port. -/
inductive CtrlEvent where
  | control (msg : List Char)
  | participant (port : Speaker) (text : List Char)
  | session_start
  | buffer_status (msg : List Char)
deriving DecidableEq, Repr

/-- Controller outputs, by output port. The `status` JSON payloads are
modelled structurally (`status_started` is `{"status": "started", "turn":
"techer"}`, etc.). -/
inductive CtrlOut where
  | control_llm1 (msg : List Char)
  | control_llm2 (msg : List Char)
  | llm_control (msg : List Char)
  | status_started
  | status_stopped
  | status_turn_change (turn : Speaker)
  | log (msg : List Char)
deriving DecidableEq, Repr

/-- One iteration of the controller's event loop on an `INPUT` event.
`control_llm2` is techer's control port, `control_llm1` is myself's.
Substring matching mirrors `"start" in str(control_data).lower()` with the
`start` branch checked before `stop`. An empty participant text while the
conversation is started advances `current_turn` modulo the rotation and
signals the new current speaker; the port the text arrived on is not
consulted. -/
def ctrlStep (st : CtrlState) : CtrlEvent → CtrlState × List CtrlOut
  | .control msg =>
      if hasSub "start".toList (lower msg) then
        (⟨true, 0⟩,
          [.control_llm2 "start".toList, .llm_control "active".toList, .status_started])
      else if hasSub "stop".toList (lower msg) then
        (⟨false, st.current_turn⟩, [.llm_control "stop".toList, .status_stopped])
      else (st, [])
  | .participant _port text =>
      if st.conversation_started then
        if text = [] then
          let newTurn := (st.current_turn + 1) % turn_order.length
          let next := turn_order.getD newTurn .techer
          (⟨st.conversation_started, newTurn⟩,
            (if next = .techer then CtrlOut.control_llm2 "speak".toList
             else CtrlOut.control_llm1 "speak".toList) :: [.status_turn_change next])
        else (st, [])
      else (st, [])
  | .session_start => (st, [])
  | .buffer_status _ => (st, [])

/-! ## Segmenter node state and event loop (`fake_text_segmenter.py`) -/

/-- The per-speaker accumulation buffers `buffers`, one per participant,
both initially empty. -/
structure SegState where
  buffer_myself : List Char
  buffer_techer : List Char
deriving DecidableEq, Repr

def segBuf (st : SegState) : Speaker → List Char
  | .myself => st.buffer_myself
  | .techer => st.buffer_techer

def segSetBuf (st : SegState) : Speaker → List Char → SegState
  | .myself, b => ⟨b, st.buffer_techer⟩
  | .techer, b => ⟨st.buffer_myself, b⟩

/-- Segmenter input events, by port. The `control` and `reset` ports share
one handler in the source, so they are one constructor. -/
inductive SegEvent where
  | participant (port : Speaker) (f : Frag)
  | audio_complete
  | audio_buffer_control
  | control (msg : List Char)
deriving DecidableEq, Repr

/-- Segmenter outputs: per-speaker `text_segment_<id>` ports, `status`
JSON payloads (modelled structurally) and the final `log` line. -/
inductive SegOut where
  | text_segment (speaker : Speaker) (seg : List Char)
  | status_processed (source : Speaker)
  | status_audio_complete
  | log (msg : List Char)
deriving DecidableEq, Repr

/-- One iteration of the segmenter's event loop on an `INPUT` event. -/
def segStep (st : SegState) : SegEvent → SegState × List SegOut
  | .participant p f =>
      let r := ingest (segBuf st p) f
      (segSetBuf st p r.2, r.1.map (SegOut.text_segment p) ++ [.status_processed p])
  | .audio_complete => (st, [.status_audio_complete])
  | .audio_buffer_control => (st, [])
  | .control msg =>
      if hasSub "reset".toList (lower msg) then (⟨[], []⟩, []) else (st, [])

/-! ## Synthetic speaker (`fake_llm.py`) -/

/-- The canned replies `FAKE_RESPONSES["myself"]`. -/
def FAKE_RESPONSES_myself : List (List Char) :=
  ["你好！我是学生小明，很高兴参加今天的讨论。".toList,
   "我认为这个话题非常有趣。让我分享一下我的观点。".toList,
   "从我的角度来看，这个问题有很多方面需要考虑。".toList,
   "我同意老师的看法，这确实是一个重要的问题。".toList,
   "让我补充一点，我觉得我们还需要考虑实际应用场景。".toList]

/-- The canned replies `FAKE_RESPONSES["techer"]`. -/
def FAKE_RESPONSES_techer : List (List Char) :=
  ["同学们好！今天我们来讨论一个有趣的话题。".toList,
   "很好的问题！让我从专业角度来解释一下。".toList,
   "这个观点很有见地。我来补充一些背景知识。".toList,
   "大家说得都很好。让我总结一下关键要点。".toList,
   "非常精彩的讨论！希望大家继续保持学习热情。".toList]

/-- LLM input events, by port. -/
inductive LlmEvent where
  | text (input : List Char)
  | control (msg : List Char)
deriving DecidableEq, Repr

/-- LLM outputs: `text` fragments with their `streaming` / `complete` /
`index` metadata (a key absent from the metadata dict is `none` / `false`),
and the `status` completion JSON. -/
inductive LlmOut where
  | text (data : List Char) (streaming : Bool) (complete : Bool) (index : Option Nat)
  | status_complete (participant : List Char)
deriving DecidableEq, Repr

/-- The streaming loop `for i, char in enumerate(response): send_output("text", [char],
{"streaming": True, "index": i})`. -/
def emitChars (i : Nat) : List Char → List LlmOut
  | [] => []
  | c :: rest => .text [c] true false (some i) :: emitChars (i + 1) rest

/-- One iteration of the LLM's event loop on an `INPUT` event. The state is
`response_index`; a `text` prompt streams `responses[response_index % len]`
character by character, then the empty end-of-stream marker, then a status;
a control containing `reset` rewinds the index to 0. -/
def llmStep (responses : List (List Char)) (participant_id : List Char) (st : Nat) :
    LlmEvent → Nat × List LlmOut
  | .text _input =>
      let response := responses.getD (st % responses.length) []
      (st + 1,
        emitChars 0 response ++
          [.text [] false true none, .status_complete participant_id])
  | .control msg =>
      if hasSub "reset".toList (lower msg) then (0, []) else (st, [])

/-! ## Fake TTS (`fake_tts.py`) -/

/-- The sample count of `generate_fake_audio`: `duration = len(text) * duration_per_char;
num_samples = int(sample_rate * duration)`. Python floats are idealized as
exact rationals; `int()` truncates toward zero, which equals the floor for
the non-negative values produced here. -/
def fake_audio_num_samples (text : List Char) (sample_rate duration_per_char : ℚ) : ℤ :=
  ⌊sample_rate * ((text.length : ℚ) * duration_per_char)⌋

/-- The audio samples (all zeros) and sample rate returned by
`generate_fake_audio(text)` with its default arguments
`sample_rate=22050`, `duration_per_char=0.05`. -/
def generate_fake_audio (text : List Char) : List ℤ × ℕ :=
  (List.replicate (fake_audio_num_samples text 22050 (5 / 100)).toNat 0, 22050)

/-- Byte length of `struct.pack('<Nh', ...)`: two bytes per 16-bit sample.
Only the length of the packed payload is modelled; the payload is all
zero bytes. -/
def pack_s16le_len (samples : List ℤ) : ℕ := 2 * samples.length

/-- TTS input events (only the `text` port carries data). -/
inductive TtsEvent where
  | text (data : List Char)
deriving DecidableEq, Repr

/-- TTS outputs: the `audio` byte payload (modelled by its byte length,
sample rate and source text from the metadata), the `status` and
`segment_complete` JSON payloads, and the final `log` line. -/
inductive TtsOut where
  | audio (bytes_len : ℕ) (sample_rate : ℕ) (src : List Char)
  | status_synth (text_length : ℕ) (audio_bytes : ℕ)
  | segment_complete (text : List Char)
  | log (msg : List Char)
deriving DecidableEq, Repr

/-- One iteration of the TTS event loop on an `INPUT` event: an empty text
is ignored; otherwise fake audio is synthesized and emitted with its
status and completion signals. -/
def ttsStep (st : Unit) : TtsEvent → Unit × List TtsOut
  | .text data =>
      if data ≠ [] then
        let audio := generate_fake_audio data
        (st, [.audio (pack_s16le_len audio.1) audio.2 data,
              .status_synth data.length (pack_s16le_len audio.1),
              .segment_complete data])
      else (st, [])

/-! ## Conference bridge (`fake_bridge.py`) -/

/-- Bridge input events, by port. -/
inductive BridgeEvent where
  | control (msg : List Char)
  | participant (port : Speaker) (text : List Char)
deriving DecidableEq, Repr

/-- Bridge outputs: forwarded `text` and `status` JSON payloads (modelled
structurally), and the final `log` line. -/
inductive BridgeOut where
  | text (data : List Char)
  | status_sent (target : List Char)
  | status_forwarded (target : List Char)
  | log (msg : List Char)
deriving DecidableEq, Repr

/-- One iteration of the bridge's event loop on an `INPUT` event.
`bridge_target` is the `BRIDGE_TARGET` environment value. A control
containing `speak` or `start` emits the canned prompt for the target; a
participant text is forwarded only when non-empty. -/
def bridgeStep (bridge_target : List Char) (st : Unit) : BridgeEvent → Unit × List BridgeOut
  | .control msg =>
      if hasSub "speak".toList (lower msg) || hasSub "start".toList (lower msg) then
        let prompt :=
          if bridge_target = "myself".toList then "请分享你对这个话题的看法。".toList
          else "请开始今天的讨论。".toList
        (st, [.text prompt, .status_sent bridge_target])
      else (st, [])
  | .participant _port text =>
      if text ≠ [] then (st, [.text text, .status_forwarded bridge_target])
      else (st, [])

/-! ## The dora event loop -/

/-- A dora node event: an `INPUT` on some port (`ε` describes the decoded
port/payload), a `STOP`, or an `ERROR`. -/
inductive NodeEvent (ε : Type) where
  | input (e : ε)
  | stop
  | error
deriving DecidableEq, Repr

/-- The `for event in node:` loop: `INPUT` events are handled by `stepFn`,
`ERROR` events are only logged, and a `STOP` event breaks out of the loop
(events after it are never consumed). After the loop the node emits
`final` (the shutdown log, where the source has one). -/
def runEvents {σ ε ω : Type} (stepFn : σ → ε → σ × List ω) (final : List ω) :
    σ → List (NodeEvent ε) → List ω
  | _, [] => final
  | _, .stop :: _ => final
  | st, .error :: rest => runEvents stepFn final st rest
  | st, .input e :: rest =>
      let r := stepFn st e
      r.2 ++ runEvents stepFn final r.1 rest

/-- Run a sequence of `INPUT` events, returning the final state and all
outputs in emission order. -/
def runTrace {σ ε ω : Type} (stepFn : σ → ε → σ × List ω) : σ → List ε → σ × List ω
  | st, [] => (st, [])
  | st, e :: rest =>
      let r := stepFn st e
      let r' := runTrace stepFn r.1 rest
      (r'.1, r.2 ++ r'.2)

/-- The segmenter's full event loop, final log included. -/
def segRun (st : SegState) (evs : List (NodeEvent SegEvent)) : List SegOut :=
  runEvents segStep [.log "[FAKE_SEGMENTER] Shutdown complete".toList] st evs

/-- The controller's full event loop, final log included. -/
def ctrlRun (st : CtrlState) (evs : List (NodeEvent CtrlEvent)) : List CtrlOut :=
  runEvents ctrlStep [.log "[FAKE_CONTROLLER] Shutdown complete".toList] st evs

/-- The TTS node's full event loop, final log included (the log line
interpolates the voice name). -/
def ttsRun (voice : List Char) (st : Unit) (evs : List (NodeEvent TtsEvent)) : List TtsOut :=
  runEvents ttsStep
    [.log ("[FAKE_TTS][".toList ++ voice ++ "] Shutdown complete".toList)] st evs

/-- The bridge's full event loop, final log included. -/
def bridgeRun (target : List Char) (st : Unit) (evs : List (NodeEvent BridgeEvent)) :
    List BridgeOut :=
  runEvents (bridgeStep target)
    [.log ("[FAKE_BRIDGE][".toList ++ target ++ "] Shutdown complete".toList)] st evs

/-- The LLM node's full event loop. `fake_llm.py` is the one node whose
`main` ends right after the loop: it emits nothing after `STOP`. -/
def llmRun (responses : List (List Char)) (participant_id : List Char) (st : Nat)
    (evs : List (NodeEvent LlmEvent)) : List LlmOut :=
  runEvents (llmStep responses participant_id) [] st evs

lemma nonspace_append (a b : List Char) : nonspace (a ++ b) = nonspace a ++ nonspace b := by
  simp [nonspace]

lemma nonspace_dropWhile (l : List Char) :
    nonspace (l.dropWhile isSpace) = nonspace l := by
  induction l with
  | nil => rfl
  | cons c t ih =>
      by_cases h : isSpace c
      · rw [List.dropWhile_cons, if_pos h, ih]
        simp [nonspace, List.filter_cons, h]
      · rw [List.dropWhile_cons, if_neg h]

lemma nonspace_reverse (l : List Char) : nonspace l.reverse = (nonspace l).reverse :=
  List.filter_reverse _ _

/-- Stripping surrounding whitespace does not change the non-whitespace
characters. -/
lemma nonspace_strip (l : List Char) : nonspace (strip l) = nonspace l := by
  unfold strip
  rw [nonspace_reverse, nonspace_dropWhile, nonspace_reverse, List.reverse_reverse,
    nonspace_dropWhile]

lemma nonspace_of_strip_nil {l : List Char} (h : strip l = []) : nonspace l = [] := by
  rw [← nonspace_strip, h]; rfl

/-- The splitting loop preserves non-whitespace text: the concatenation of
the produced segments has exactly the non-whitespace characters of the
accumulator followed by the remaining input. -/
lemma segLoop_conserves (t : List Char) :
    ∀ cur : List Char, nonspace (segLoop cur t).flatten = nonspace (cur ++ t) := by
  induction t with
  | nil =>
      intro cur
      by_cases h : strip cur = []
      · have h1 : segLoop cur [] = [] := by simp [segLoop, h]
        rw [h1, List.append_nil]
        exact (nonspace_of_strip_nil h).symm
      · have h1 : segLoop cur [] = [strip cur] := by simp [segLoop, h]
        rw [h1, List.append_nil]
        simp [nonspace_strip]
  | cons c rest ih =>
      intro cur
      have hsplit : nonspace (cur ++ c :: rest) = nonspace (cur ++ [c]) ++ nonspace rest := by
        rw [← nonspace_append]; simp
      by_cases hc : c ∈ PUNCT
      · by_cases h : strip (cur ++ [c]) = []
        · have hns : nonspace (cur ++ [c]) = [] := nonspace_of_strip_nil h
          simp only [segLoop, if_pos hc, if_pos h, List.nil_append]
          rw [hsplit, hns, List.nil_append]
          simpa using ih []
        · simp only [segLoop, if_pos hc, if_neg h, List.singleton_append, List.flatten_cons]
          rw [nonspace_append, nonspace_strip, hsplit]
          congr 1
          simpa using ih []
      · simp only [segLoop, if_neg hc]
        rw [ih (cur ++ [c]), hsplit, nonspace_append]

/-- The function `segment_text` preserves non-whitespace text. -/
lemma segment_text_conserves (t : List Char) :
    nonspace (segment_text t).flatten = nonspace t := by
  by_cases h : t = []
  · simp [segment_text, h, nonspace]
  · simpa [segment_text, h] using segLoop_conserves t []

lemma flatten_dropLast_getLastD :
    ∀ l : List (List Char), l ≠ [] → l.dropLast.flatten ++ l.getLastD [] = l.flatten
  | [a], _ => by simp
  | a :: b :: u, _ => by
      have ih := flatten_dropLast_getLastD (b :: u) (by simp)
      simp only [List.getLastD_cons, List.flatten_cons] at ih
      simp only [List.dropLast_cons₂, List.flatten_cons, List.append_assoc,
        List.getLastD_cons]
      rw [ih]

/-- One ingest step preserves non-whitespace text: emitted chunks plus the
new buffer carry exactly the non-whitespace characters of the old buffer
followed by the fragment. -/
lemma ingest_conserves (b : List Char) (f : Frag) :
    nonspace ((ingest b f).1.flatten ++ (ingest b f).2) = nonspace (b ++ f.text) := by
  unfold ingest
  by_cases hs : f.streaming && !f.complete
  · simp only [if_pos hs]
    by_cases hlen : (segment_text (b ++ f.text)).length > 1
    · simp only [if_pos hlen]
      have hne : segment_text (b ++ f.text) ≠ [] := by
        intro hnil; rw [hnil] at hlen; simp at hlen
      rw [flatten_dropLast_getLastD _ hne]
      exact segment_text_conserves _
    · simp [if_neg hlen, nonspace]
  · simp only [if_neg hs]
    by_cases hb : b ≠ []
    · simp only [if_pos hb]
      rw [List.append_nil]
      exact segment_text_conserves _
    · simp only [if_neg hb]
      by_cases ht : f.text ≠ []
      · simp only [if_pos ht, List.append_nil]
        push_neg at hb
        rw [hb, List.nil_append]
        exact segment_text_conserves _
      · push_neg at hb ht
        simp [hb, ht, nonspace]

/-- Ingesting any fragment sequence preserves non-whitespace text, for any
starting buffer. -/
lemma runSeg_conserves (fs : List Frag) :
    ∀ b : List Char,
      nonspace ((runSeg b fs).1.flatten ++ (runSeg b fs).2) =
        nonspace (b ++ (fs.map Frag.text).flatten) := by
  induction fs with
  | nil => intro b; simp [runSeg]
  | cons f rest ih =>
      intro b
      have hstep := ingest_conserves b f
      rw [nonspace_append] at hstep
      have ih' := ih (ingest b f).2
      rw [nonspace_append, nonspace_append] at ih'
      simp only [runSeg, List.map_cons, List.flatten_cons, List.flatten_append]
      rw [List.append_assoc, nonspace_append, nonspace_append, ih',
        ← List.append_assoc, hstep, nonspace_append, nonspace_append,
        List.append_assoc, nonspace_append]

/-- C1: for every sequence of fragments ingested for one speaker since the
last reset, the concatenation of all emitted chunks (in emission order)
followed by the retained buffer tail carries exactly the non-whitespace
characters, in order, of the concatenation of all input fragments — only
whitespace trimmed at chunk boundaries can differ, and no non-whitespace
character is dropped or duplicated. -/
theorem segmenter_text_conservation (fs : List Frag) :
    nonspace ((runSeg [] fs).1.flatten ++ (runSeg [] fs).2) =
      nonspace (fs.map Frag.text).flatten := by
  simpa using runSeg_conserves fs []

/-- C3: streaming `"你好"`, `"。还有问题吗"`, `"？"` for one speaker emits
exactly the chunk `"你好。"`, and that chunk appears right after the second
fragment; the tail `"还有问题吗？"` is retained in the buffer and emitted
only once a `complete=true` fragment arrives. -/
theorem segmenter_streaming_example :
    (runSeg [] [⟨"你好".toList, true, false⟩]).1 = [] ∧
    runSeg [] [⟨"你好".toList, true, false⟩, ⟨"。还有问题吗".toList, true, false⟩] =
      (["你好。".toList], "还有问题吗".toList) ∧
    runSeg [] [⟨"你好".toList, true, false⟩, ⟨"。还有问题吗".toList, true, false⟩,
        ⟨"？".toList, true, false⟩] =
      (["你好。".toList], "还有问题吗？".toList) ∧
    (runSeg [] [⟨"你好".toList, true, false⟩, ⟨"。还有问题吗".toList, true, false⟩,
        ⟨"？".toList, true, false⟩, ⟨[], false, true⟩]).1 =
      ["你好。".toList, "还有问题吗？".toList] :=
  ⟨rfl, rfl, rfl, rfl⟩

/-- C2 counterexample: from the freshly-started state (running, current
speaker techer on turn index 0), an end-of-turn signal (empty fragment) on
the *other* speaker's port (`myself`) is not ignored: the turn index moves
to 1 and a `speak` signal plus a turn-change status are emitted. -/
theorem controller_noncurrent_end_of_turn_not_ignored :
    turn_order.getD ((ctrlStep ⟨false, 0⟩ (.control "start".toList)).1).current_turn .techer
      = .techer ∧
    (ctrlStep ((ctrlStep ⟨false, 0⟩ (.control "start".toList)).1)
        (.participant .myself [])).1.current_turn = 1 ∧
    (ctrlStep ((ctrlStep ⟨false, 0⟩ (.control "start".toList)).1)
        (.participant .myself [])).2 =
      [.control_llm1 "speak".toList, .status_turn_change .myself] :=
  ⟨rfl, rfl, rfl⟩

/-- C2 amended: the controller never consults the port an end-of-turn
signal arrived on. While running, an empty fragment on either participant
port — current speaker or not — advances the turn index modulo the
rotation and signals the resulting next speaker; only a signal arriving
while stopped is ignored (no state change, no emission). -/
theorem controller_end_of_turn_ignores_port (t : Nat) (p : Speaker) :
    ctrlStep ⟨true, t⟩ (.participant p []) =
      ctrlStep ⟨true, t⟩ (.participant (turn_order.getD (t % 2) .techer) []) ∧
    (ctrlStep ⟨true, t⟩ (.participant p [])).1.current_turn = (t + 1) % 2 ∧
    (ctrlStep ⟨true, t⟩ (.participant p [])).2 ≠ [] ∧
    ctrlStep ⟨false, t⟩ (.participant p []) = (⟨false, t⟩, []) := by
  exact ⟨rfl, rfl, List.cons_ne_nil _ _, rfl⟩

/-- C4: from any controller state, a `start` control sets the turn index
to 0 and signals the first speaker of the rotation (techer, on its
control port `control_llm2`); two consecutive end-of-turn signals (from
techer's port, then myself's) bring the turn index back to 0 and the next
speaker signaled is again techer. -/
theorem controller_start_and_rotation (st : CtrlState) :
    (ctrlStep st (.control "start".toList)).1 = ⟨true, 0⟩ ∧
    (ctrlStep st (.control "start".toList)).2 =
      [.control_llm2 "start".toList, .llm_control "active".toList, .status_started] ∧
    turn_order.getD (0 : Nat) .myself = .techer ∧
    (ctrlStep ⟨true, 0⟩ (.participant .techer [])).1 = ⟨true, 1⟩ ∧
    (ctrlStep ⟨true, 1⟩ (.participant .myself [])).1 = ⟨true, 0⟩ ∧
    (ctrlStep ⟨true, 1⟩ (.participant .myself [])).2 =
      [.control_llm2 "speak".toList, .status_turn_change .techer] :=
  ⟨rfl, rfl, rfl, rfl, rfl, rfl⟩

/-- C6 counterexample: start, then one end-of-turn (turn index now 1), then
`stop`: the started flag is cleared but the turn index stays 1, so the
state is not reset to `{started := false, current_index := 0}` as claimed. -/
theorem controller_stop_keeps_turn_index :
    (ctrlStep ((ctrlStep ⟨true, 0⟩ (.participant .techer [])).1)
        (.control "stop".toList)).1 = ⟨false, 1⟩ ∧
    ((ctrlStep ((ctrlStep ⟨true, 0⟩ (.participant .techer [])).1)
        (.control "stop".toList)).1 ≠ ⟨false, 0⟩) :=
  ⟨rfl, by decide⟩

/-- C6 amended: a `stop` control clears the started flag but leaves the
current turn index unchanged, emitting a stop signal on the `llm_control`
port and a stopped status; the stale index is discarded only in the sense
that the next `start` resets it to 0. -/
theorem controller_stop_clears_started_keeps_index (st : CtrlState) (n : Nat) :
    ctrlStep st (.control "stop".toList) =
      (⟨false, st.current_turn⟩, [.llm_control "stop".toList, .status_stopped]) ∧
    (ctrlStep ⟨false, n⟩ (.control "start".toList)).1 = ⟨true, 0⟩ :=
  ⟨rfl, rfl⟩

/-- With the default parameters (`sample_rate = 22050`,
`duration_per_char = 0.05`), the sample count is `⌊2205·len/2⌋`: Python
`int()` truncates the product rather than rounding it. -/
lemma fake_audio_num_samples_closed (text : List Char) :
    fake_audio_num_samples text 22050 (5 / 100) = ((2205 * text.length) / 2 : ℕ) := by
  unfold fake_audio_num_samples
  have h : (22050 : ℚ) * ((text.length : ℚ) * (5 / 100)) =
      (((2205 * text.length : ℕ) : ℤ) : ℚ) / ((2 : ℕ) : ℚ) := by
    push_cast; ring
  rw [h, Rat.floor_intCast_div_natCast]
  exact rfl

/-- C5 counterexample: for the 3-character input `"你好吗"` the exact
product is `22050 · 3 · 0.05 = 3307.5`; the code truncates it to `3307`
samples while rounding to the nearest integer gives `3308`, so the sample
count is not `round(sample_rate · len · duration_per_char)`. -/
theorem tts_sample_count_truncates :
    fake_audio_num_samples "你好吗".toList 22050 (5 / 100) = 3307 ∧
    round ((22050 : ℚ) * (("你好吗".toList.length : ℚ) * (5 / 100))) = 3308 ∧
    fake_audio_num_samples "你好吗".toList 22050 (5 / 100) ≠
      round ((22050 : ℚ) * (("你好吗".toList.length : ℚ) * (5 / 100))) := by
  have hlen : ("你好吗".toList.length : ℚ) = 3 := by norm_num
  have h1 : fake_audio_num_samples "你好吗".toList 22050 (5 / 100) = 3307 := by
    rw [fake_audio_num_samples_closed]
    norm_num
  have h2 : round ((22050 : ℚ) * (("你好吗".toList.length : ℚ) * (5 / 100))) = 3308 := by
    rw [hlen, round_eq]
    have : (22050 : ℚ) * ((3 : ℚ) * (5 / 100)) + 1 / 2 = ((3308 : ℤ) : ℚ) := by norm_num
    rw [this, Int.floor_intCast]
  exact ⟨h1, h2, by rw [h1, h2]; decide⟩

/-- C5 amended: the synthetic audio's sample count (emitted byte length
divided by 2) equals `⌊sample_rate · len(text) · duration_per_char⌋` —
Python `int()` truncates, which differs from rounding exactly on odd text
lengths; with the default constants this is `⌊2205·len/2⌋`, and for a
10-character input the product is the exact integer 11025, so the claimed
rounded value holds there. -/
theorem tts_sample_count_formula (text : List Char) :
    (generate_fake_audio text).1.length = 2205 * text.length / 2 ∧
    pack_s16le_len (generate_fake_audio text).1 = 2 * (2205 * text.length / 2) ∧
    (text.length = 10 →
      (generate_fake_audio text).1.length = 11025 ∧
      fake_audio_num_samples text 22050 (5 / 100) =
        round ((22050 : ℚ) * ((text.length : ℚ) * (5 / 100)))) := by
  have hlen : (generate_fake_audio text).1.length = 2205 * text.length / 2 := by
    simp only [generate_fake_audio, List.length_replicate]
    rw [fake_audio_num_samples_closed, Int.toNat_natCast]
  refine ⟨hlen, by simp [pack_s16le_len, hlen], ?_⟩
  intro h10
  constructor
  · rw [hlen, h10]
  · rw [fake_audio_num_samples_closed, h10]
    have h : (22050 : ℚ) * (((10 : ℕ) : ℚ) * (5 / 100)) = ((11025 : ℤ) : ℚ) := by norm_num
    rw [h, round_intCast]
    norm_num

/-- Witness for `tts_sample_count_formula`: a concrete 10-character input
yields exactly 11025 samples (22050 bytes). -/
theorem tts_sample_count_formula_witness :
    ("abcdefghij".toList.length = 10) ∧
    (generate_fake_audio "abcdefghij".toList).1.length = 11025 :=
  ⟨by decide, ((tts_sample_count_formula "abcdefghij".toList).2.2 (by decide)).1⟩

/-- C7: with 5 stored canned replies, seven prompts on the text port serve
the replies at indices 0, 1, 2, 3, 4, 0, 1 in that order (the cursor wraps
modulo the list length), and a `reset` control rewinds the cursor to 0
from any cursor value, i.e. regardless of how many prompts were served. -/
theorem llm_cursor_wraps_and_resets
    (r0 r1 r2 r3 r4 pid p0 p1 p2 p3 p4 p5 p6 : List Char) (n : Nat) :
    runTrace (llmStep [r0, r1, r2, r3, r4] pid) 0
        ([p0, p1, p2, p3, p4, p5, p6].map LlmEvent.text) =
      (7,
        ([r0, r1, r2, r3, r4, r0, r1].map
          (fun r => emitChars 0 r ++
            [.text [] false true none, .status_complete pid])).flatten) ∧
    (llmStep [r0, r1, r2, r3, r4] pid n (.control "reset".toList)).1 = 0 := by
  refine ⟨?_, rfl⟩
  simp only [runTrace, llmStep, List.map_cons, List.map_nil, List.flatten_cons,
    List.flatten_nil, List.append_assoc, List.append_nil]
  norm_num [List.getD]

lemma emitChars_length (l : List Char) : ∀ i, (emitChars i l).length = l.length := by
  induction l with
  | nil => intro i; rfl
  | cons c rest ih => intro i; simp [emitChars, ih]

lemma emitChars_getD (l : List Char) : ∀ i j, j < l.length →
    (emitChars i l).getD j (.status_complete []) =
      .text [l.getD j 'a'] true false (some (i + j)) := by
  induction l with
  | nil => intro i j h; simp at h
  | cons c rest ih =>
      intro i j h
      cases j with
      | zero => simp [emitChars]
      | succ k =>
          simp only [emitChars, List.getD_cons_succ, List.length_cons] at h ⊢
          rw [show i + (k + 1) = i + 1 + k by omega]
          exact ih (i + 1) k (by omega)

/-- C8: on every prompt, the synthetic speaker emits exactly
`len(reply) + 2` outputs: the `i`-th (for `i < len(reply)`) is the single
`i`-th character of the selected canned reply tagged
`streaming=true, complete=false, index=i`; the next is the single empty
end-of-utterance fragment tagged `streaming=false, complete=true`; the
last is the completion status. -/
theorem llm_streams_reply_char_by_char (responses : List (List Char))
    (pid : List Char) (st : Nat) (input : List Char) :
    ((llmStep responses pid st (.text input)).2).length =
      (responses.getD (st % responses.length) []).length + 2 ∧
    (∀ i, i < (responses.getD (st % responses.length) []).length →
      ((llmStep responses pid st (.text input)).2).getD i (.status_complete []) =
        .text [(responses.getD (st % responses.length) []).getD i 'a']
          true false (some i)) ∧
    ((llmStep responses pid st (.text input)).2).getD
        (responses.getD (st % responses.length) []).length (.status_complete []) =
      .text [] false true none ∧
    ((llmStep responses pid st (.text input)).2).getD
        ((responses.getD (st % responses.length) []).length + 1) (.status_complete []) =
      .status_complete pid := by
  have hout : (llmStep responses pid st (.text input)).2 =
      emitChars 0 (responses.getD (st % responses.length) []) ++
        [.text [] false true none, .status_complete pid] := rfl
  refine ⟨?_, ?_, ?_, ?_⟩
  · rw [hout, List.length_append, emitChars_length]
    rfl
  · intro i hi
    rw [hout, List.getD_append _ _ _ _ (by rw [emitChars_length]; exact hi)]
    simpa using emitChars_getD _ 0 i hi
  · rw [hout, List.getD_append_right _ _ _ _ (by rw [emitChars_length])]
    rw [emitChars_length]
    simp
  · rw [hout, List.getD_append_right _ _ _ _ (by rw [emitChars_length]; omega)]
    rw [emitChars_length]
    simp

/-- Witness for `llm_streams_reply_char_by_char`: for techer's response
list at cursor 0, the first emitted fragment is the single character `同`
tagged `streaming=true, index=0`. -/
theorem llm_streams_reply_char_by_char_witness :
    (0 < (FAKE_RESPONSES_techer.getD (0 % FAKE_RESPONSES_techer.length) []).length) ∧
    ((llmStep FAKE_RESPONSES_techer "techer".toList 0 (.text [])).2).getD 0
        (.status_complete []) =
      .text [(FAKE_RESPONSES_techer.getD (0 % FAKE_RESPONSES_techer.length) []).getD 0 'a']
        true false (some 0) :=
  ⟨by decide,
    (llm_streams_reply_char_by_char FAKE_RESPONSES_techer "techer".toList 0 []).2.1 0
      (by decide)⟩

/-- C9 counterexample: the synthetic speaker's `main` in `fake_llm.py` ends
immediately after its event loop, so on receiving `STOP` the node
terminates without emitting any output at all — in particular no final
shutdown log line — contradicting the claim for every component. -/
theorem llm_no_shutdown_log_on_stop :
    llmRun FAKE_RESPONSES_myself "myself".toList 0 [.stop] = [] :=
  rfl

/-- C9 amended: receiving `STOP` terminates each component's event loop
(events after it are never consumed); the segmenter, controller, TTS and
bridge then emit exactly their final shutdown log line on the `log` port —
but the synthetic speaker (`fake_llm.py`) terminates without emitting a
shutdown log. -/
theorem stop_terminates_loop_and_logs (s : SegState) (c : CtrlState)
    (voice target pid : List Char) (rs : List (List Char)) (n : Nat)
    (r1 : List (NodeEvent SegEvent)) (r2 : List (NodeEvent CtrlEvent))
    (r3 : List (NodeEvent TtsEvent)) (r4 : List (NodeEvent BridgeEvent))
    (r5 : List (NodeEvent LlmEvent)) :
    segRun s (.stop :: r1) = [.log "[FAKE_SEGMENTER] Shutdown complete".toList] ∧
    ctrlRun c (.stop :: r2) = [.log "[FAKE_CONTROLLER] Shutdown complete".toList] ∧
    ttsRun voice () (.stop :: r3) =
      [.log ("[FAKE_TTS][".toList ++ voice ++ "] Shutdown complete".toList)] ∧
    bridgeRun target () (.stop :: r4) =
      [.log ("[FAKE_BRIDGE][".toList ++ target ++ "] Shutdown complete".toList)] ∧
    llmRun rs pid n (.stop :: r5) = [] :=
  ⟨rfl, rfl, rfl, rfl, rfl⟩

/-- C10: the bridge forwards a participant message on its `text` output
only when the received text is non-empty: an event carrying the empty
string on either participant port produces no output at all (no `text`,
no `status`), so the empty end-of-utterance marker is never forwarded,
while any non-empty text is forwarded together with a forwarded status. -/
theorem bridge_forwards_only_nonempty (target : List Char) (p : Speaker)
    (text : List Char) :
    (bridgeStep target () (.participant p [])).2 = [] ∧
    (text ≠ [] →
      (bridgeStep target () (.participant p text)).2 =
        [.text text, .status_forwarded target]) := by
  refine ⟨rfl, fun h => ?_⟩
  simp [bridgeStep, h]

/-- Witness for `bridge_forwards_only_nonempty`: the non-empty text `"hi"`
is forwarded to the target `myself`. -/
theorem bridge_forwards_only_nonempty_witness :
    ("hi".toList ≠ []) ∧
    (bridgeStep "myself".toList () (.participant .techer "hi".toList)).2 =
      [.text "hi".toList, .status_forwarded "myself".toList] :=
  ⟨by decide,
    (bridge_forwards_only_nonempty "myself".toList .techer "hi".toList).2 (by decide)⟩

end MofaStudio
